import Mathlib

/-!
Shallow embedding of the nearest-neighbor TSP heuristic from `TSP.cpp`
(repository JonSW8869/Project-3-335), together with proofs of the
specification's claims about it.

The embedding follows `TSP.cpp` line by line:
* `Node` is the city record (id plus 2D coordinates).
* `Node.distance` is the distance primitive declared in `TSP.hpp` (that header
  is not among the available sources, so it is modelled from the spec, §3).
* `scanNearest` is the inner for-loop of `TSP::nearestNeighbor`
  (TSP.cpp lines 173-182) that tracks the iterator and distance of the
  closest city seen so far.
* `nnLoop` is the outer while-loop (lines 167-192) plus the loop-exit state.
* `nearestNeighbor` is `TSP::nearestNeighbor` (lines 146-201).
* `Tour.display` is `TSP::Tour::display` (lines 7-12), rendered as the list
  of lines it prints.

C++ `size_t` distances are modelled as `Nat` (all quantities here are small
and nonnegative; no overflow is exercised by the spec's scenarios), `double`
coordinates as `ℚ`, and `std::list<Node>` as `List Node` in enumeration
order.  The unchecked dereference of `cities.end()` on a failed lookup
(line 158) is undefined behavior in C++; the embedding maps that branch to
`none`.
-/

namespace TSP

/-- A city: an identifier and 2D coordinates (`Node` from `TSP.hpp`). -/
structure Node where
  id : Nat
  x : ℚ
  y : ℚ
deriving Repr, DecidableEq

instance : Inhabited Node := ⟨⟨0, 0, 0⟩⟩

/-- The square root of a natural number truncated toward zero: the largest
`k` with `k * k ≤ n` (every such `k` is at most `n`).  Defined by structural
recursion so that concrete distances evaluate inside the kernel. -/
def truncSqrt (n : Nat) : Nat :=
  Nat.findGreatest (fun k => k * k ≤ n) n

/-- `truncSqrt` is characterized by the two truncation inequalities. -/
theorem truncSqrt_le_and_lt (n : Nat) :
    truncSqrt n * truncSqrt n ≤ n ∧ n < (truncSqrt n + 1) * (truncSqrt n + 1) := by
  obtain ⟨hle, hP, hgt⟩ := Nat.findGreatest_eq_iff.mp (Eq.refl (truncSqrt n))
  constructor
  · by_cases h0 : truncSqrt n = 0
    · rw [h0]
      exact Nat.zero_le n
    · exact hP h0
  · by_cases h1 : truncSqrt n + 1 ≤ n
    · have h2 := hgt (Nat.lt_succ_self (truncSqrt n)) h1
      simp only [not_le] at h2
      exact h2
    · have h2 : n + 1 ≤ (n + 1) * (n + 1) := Nat.le_mul_of_pos_left _ (by omega)
      have h3 : truncSqrt n = n := by omega
      rw [h3]
      omega

/-- Modelled from the spec: `Node::distance` is declared in `TSP.hpp`, which is
not among the available sources.  Per spec §3 it is the Euclidean distance
`sqrt((x1-x2)² + (y1-y2)²)` truncated toward zero to an unsigned integral
unit.  For a nonnegative rational `q`, truncating the real square root of `q`
toward zero yields exactly the truncated square root of `⌊q⌋` (for integer
`m ≥ 0`, `m ≤ sqrt q` iff `m * m ≤ q` iff `m * m ≤ ⌊q⌋`), which is what we
compute. -/
def Node.distance (a b : Node) : Nat :=
  truncSqrt (((a.x - b.x) ^ 2 + (a.y - b.y) ^ 2).floor.toNat)

/-- The tour record (`TSP::Tour`): visited cities in order, parallel edge
weights, and the running total distance. -/
structure Tour where
  path : List Node
  weights : List Nat
  total_distance : Nat
deriving Repr, DecidableEq

/-- One edge line of `TSP::Tour::display` (TSP.cpp line 9). -/
def edgeLine (a b : Node) (w : Nat) : String :=
  "EDGE " ++ toString a.id ++ " -> " ++ toString b.id ++ " | WEIGHT : " ++ toString w

/-- `TSP::Tour::display` (TSP.cpp lines 7-12) as the list of lines printed:
for every `i` from `1` to `path.size()-1`, one line built from `path[i-1]`,
`path[i]` and `weights[i]`, then the total-distance line. -/
def Tour.display (t : Tour) : List String :=
  (((List.range t.path.length).drop 1).map (fun i =>
    edgeLine (t.path.getD (i - 1) default) (t.path.getD i default) (t.weights.getD i 0)))
  ++ ["TOTAL DISTANCE: " ++ toString t.total_distance]

/-- The inner for-loop of `TSP::nearestNeighbor` (TSP.cpp lines 173-182):
walk the remaining cities starting at position `idx`, keeping the index and
distance of the best (strictly smaller wins) candidate seen so far. -/
def scanNearest (current : Node) : List Node → Nat → Nat → Nat → Nat × Nat
  | [], bestIdx, bestDist, _ => (bestIdx, bestDist)
  | c :: cs, bestIdx, bestDist, idx =>
    if current.distance c < bestDist then
      scanNearest current cs idx (current.distance c) (idx + 1)
    else
      scanNearest current cs bestIdx bestDist (idx + 1)

/-- Selection step of one while-loop iteration (TSP.cpp lines 170-182):
`nearest_it` starts at `cities.begin()` with its distance, then the inner
loop scans from the second element on.  Returns the index of the selected
city and its distance from `current`; `none` when the collection is empty
(the C++ loop is never entered then). -/
def selectNearest (current : Node) : List Node → Option (Nat × Nat)
  | [] => none
  | c0 :: cs => some (scanNearest current cs 0 (current.distance c0) 1)

/-- The result index of `scanNearest` stays below `i + cs.length` whenever the
incumbent index is below `i`; this bounds the selected index by the length of
the working collection. -/
theorem scanNearest_fst_lt (current : Node) :
    ∀ (cs : List Node) (b d i : Nat), b < i →
      (scanNearest current cs b d i).1 < i + cs.length := by
  intro cs
  induction cs with
  | nil => intro b d i hb; simpa [scanNearest] using hb
  | cons c cs ih =>
    intro b d i hb
    simp only [scanNearest]
    have hc : (c :: cs).length = cs.length + 1 := rfl
    split
    · have h := ih i (current.distance c) (i + 1) (Nat.lt_succ_self i)
      omega
    · have h := ih b d (i + 1) (Nat.lt_succ_of_lt hb)
      omega

/-- The while-loop of `TSP::nearestNeighbor` (TSP.cpp lines 167-192): while
cities remain, select the nearest one, append it to the tour (path, weight,
running total), move `current` to it and erase it from the working list.
Returns the tour together with the final `current`.  Every iteration of the
C++ loop erases exactly one city, so the loop runs exactly as many iterations
as there are cities; the embedding makes this explicit with a `fuel` argument
that the caller instantiates to the working collection's length (`nnLoop_spec`
covers every `fuel` at least that large, so the cut-off is never reached). -/
def nnLoop : Nat → Node → List Node → Tour → Tour × Node
  | _, current, [], tour => (tour, current)
  | 0, current, _ :: _, tour => (tour, current)
  | fuel + 1, current, c0 :: cs, tour =>
    let s := scanNearest current cs 0 (current.distance c0) 1
    let nearest := (c0 :: cs).getD s.1 c0
    nnLoop fuel nearest ((c0 :: cs).eraseIdx s.1)
      { path := tour.path ++ [nearest]
        weights := tour.weights ++ [s.2]
        total_distance := tour.total_distance + s.2 }

/-- `TSP::nearestNeighbor` (TSP.cpp lines 146-201).  The C++ scans for the
first city whose id equals `start_id` (lines 149-157); on a miss it
dereferences `cities.end()` — undefined behavior, modelled as `none`.
Otherwise the start city is erased from the working list (line 159), the tour
is seeded with it and weight `0` (lines 161-165), the while-loop runs, and
the tour is closed back to `tour.path.front()` (lines 194-198). -/
def nearestNeighbor (cities : List Node) (start_id : Nat) : Option Tour :=
  match cities.find? (fun n => n.id == start_id) with
  | none => none
  | some current =>
    let cities1 := cities.eraseP (fun n => n.id == start_id)
    let tour0 : Tour := { path := [current], weights := [0], total_distance := 0 }
    let r := nnLoop cities1.length current cities1 tour0
    let front := r.1.path.headD current
    let return_distance := r.2.distance front
    some { path := r.1.path ++ [front]
           weights := r.1.weights ++ [return_distance]
           total_distance := r.1.total_distance + return_distance }

/-- The call boundary of `TSP::nearestNeighbor` (TSP.cpp line 146): the
parameter `std::list<Node> cities` is received by value, so the callee owns a
copy and the caller's list is returned to the caller unchanged.  The pair is
(result of the call, caller's list after the call). -/
def nearestNeighborCall (callerCities : List Node) (start_id : Nat) :
    Option Tour × List Node :=
  (nearestNeighbor callerCities start_id, callerCities)

/-- The edge weights determined by a path: the distance of each consecutive
pair of cities. -/
def edgeWeights (p : List Node) : List Nat :=
  List.zipWith Node.distance p p.tail

theorem edgeWeights_cons_cons (a b : Node) (m : List Node) :
    edgeWeights (a :: b :: m) = a.distance b :: edgeWeights (b :: m) := rfl

/-- Appending a city to a nonempty path appends one edge weight: the distance
from the path's last city to the new one. -/
theorem edgeWeights_concat (z : Node) :
    ∀ (p : List Node) (x : Node), p.getLast? = some z →
      edgeWeights (p ++ [x]) = edgeWeights p ++ [z.distance x] := by
  intro p
  induction p with
  | nil => intro x h; simp at h
  | cons a p ih =>
    intro x h
    cases p with
    | nil =>
      simp only [List.getLast?_singleton, Option.some.injEq] at h
      subst h
      rfl
    | cons b p2 =>
      have h2 : (b :: p2).getLast? = some z := by
        simpa using h
      have step : (a :: b :: p2) ++ [x] = a :: b :: (p2 ++ [x]) := by simp
      rw [step, edgeWeights_cons_cons]
      have step2 : b :: (p2 ++ [x]) = (b :: p2) ++ [x] := by simp
      rw [step2, ih x h2, edgeWeights_cons_cons]
      rfl

/-- A list is a permutation of its `i`-th element consed onto the list with
index `i` erased. -/
theorem perm_getElem_cons_eraseIdx (l : List Node) (i : Nat) (h : i < l.length) :
    l.Perm (l[i] :: l.eraseIdx i) := by
  conv_lhs => rw [← List.take_append_drop i l]
  rw [List.drop_eq_getElem_cons h, List.eraseIdx_eq_take_drop_succ]
  exact List.perm_middle

/-- Full characterization of the inner scan loop (TSP.cpp lines 173-182):
either no scanned city beats the incumbent and the incumbent is returned, or
the scan returns the offset position and distance of the first city that
attains the minimum distance, which is strictly below the incumbent distance
and strictly below the distance of every city encountered before it. -/
theorem scanNearest_spec (current : Node) :
    ∀ (cs : List Node) (b d i : Nat),
      (scanNearest current cs b d i = (b, d) ∧
        ∀ k, (hk : k < cs.length) → d ≤ current.distance cs[k]) ∨
      (∃ k, ∃ hk : k < cs.length,
        scanNearest current cs b d i = (i + k, current.distance cs[k]) ∧
        current.distance cs[k] < d ∧
        (∀ j, (hj : j < cs.length) → current.distance cs[k] ≤ current.distance cs[j]) ∧
        (∀ j, (hj : j < cs.length) → j < k →
          current.distance cs[k] < current.distance cs[j])) := by
  intro cs
  induction cs with
  | nil =>
    intro b d i
    left
    exact ⟨rfl, fun k hk => absurd hk (by simp)⟩
  | cons c cs ih =>
    intro b d i
    simp only [scanNearest]
    by_cases h : current.distance c < d
    · rw [if_pos h]
      rcases ih i (current.distance c) (i + 1) with
        ⟨heq, hall⟩ | ⟨k, hk, heq, hlt, hmin, hstrict⟩
      · right
        refine ⟨0, by simp, ?_, ?_, ?_, ?_⟩
        · simpa using heq
        · simpa using h
        · intro j hj
          cases j with
          | zero => simp
          | succ j =>
            have hj2 : j < cs.length := by
              simp only [List.length_cons] at hj; omega
            simpa using hall j hj2
        · intro j hj hj0
          omega
      · right
        have hk1 : k + 1 < (c :: cs).length := by
          simp only [List.length_cons]; omega
        refine ⟨k + 1, hk1, ?_, ?_, ?_, ?_⟩
        · simp only [List.getElem_cons_succ]
          rw [heq]
          have harith : i + 1 + k = i + (k + 1) := by omega
          rw [harith]
        · simp only [List.getElem_cons_succ]
          exact lt_trans hlt h
        · intro j hj
          cases j with
          | zero =>
            simp only [List.getElem_cons_succ, List.getElem_cons_zero]
            exact le_of_lt hlt
          | succ j =>
            have hj2 : j < cs.length := by
              simp only [List.length_cons] at hj; omega
            simpa using hmin j hj2
        · intro j hj hjk
          cases j with
          | zero =>
            simp only [List.getElem_cons_succ, List.getElem_cons_zero]
            exact hlt
          | succ j =>
            have hj2 : j < cs.length := by
              simp only [List.length_cons] at hj; omega
            have hjk2 : j < k := by omega
            simpa using hstrict j hj2 hjk2
    · rw [if_neg h]
      have hdc : d ≤ current.distance c := Nat.le_of_not_lt h
      rcases ih b d (i + 1) with
        ⟨heq, hall⟩ | ⟨k, hk, heq, hlt, hmin, hstrict⟩
      · left
        refine ⟨heq, ?_⟩
        intro k hk
        cases k with
        | zero => simpa using hdc
        | succ k =>
          have hk2 : k < cs.length := by
            simp only [List.length_cons] at hk; omega
          simpa using hall k hk2
      · right
        have hk1 : k + 1 < (c :: cs).length := by
          simp only [List.length_cons]; omega
        refine ⟨k + 1, hk1, ?_, ?_, ?_, ?_⟩
        · simp only [List.getElem_cons_succ]
          rw [heq]
          have harith : i + 1 + k = i + (k + 1) := by omega
          rw [harith]
        · simp only [List.getElem_cons_succ]
          exact hlt
        · intro j hj
          cases j with
          | zero =>
            simp only [List.getElem_cons_succ, List.getElem_cons_zero]
            exact le_trans (le_of_lt hlt) hdc
          | succ j =>
            have hj2 : j < cs.length := by
              simp only [List.length_cons] at hj; omega
            simpa using hmin j hj2
        · intro j hj hjk
          cases j with
          | zero =>
            simp only [List.getElem_cons_succ, List.getElem_cons_zero]
            exact lt_of_lt_of_le hlt hdc
          | succ j =>
            have hj2 : j < cs.length := by
              simp only [List.length_cons] at hj; omega
            have hjk2 : j < k := by omega
            simpa using hstrict j hj2 hjk2

/-- The selection step on a nonempty working collection: it returns the index
and distance of the first city attaining the minimal distance from `current`:
its distance is a lower bound for all, and every earlier city is strictly
farther. -/
theorem selectNearest_some (current c0 : Node) (cs : List Node) :
    ∃ bi bd, ∃ hbi : bi < (c0 :: cs).length,
      selectNearest current (c0 :: cs) = some (bi, bd) ∧
      bd = current.distance (c0 :: cs)[bi] ∧
      (∀ j, (hj : j < (c0 :: cs).length) → bd ≤ current.distance (c0 :: cs)[j]) ∧
      (∀ j, (hj : j < (c0 :: cs).length) → j < bi →
        bd < current.distance (c0 :: cs)[j]) := by
  rcases scanNearest_spec current cs 0 (current.distance c0) 1 with
    ⟨heq, hall⟩ | ⟨k, hk, heq, hlt, hmin, hstrict⟩
  · refine ⟨0, current.distance c0, by simp, ?_, by simp, ?_, ?_⟩
    · simp [selectNearest, heq]
    · intro j hj
      cases j with
      | zero => simp
      | succ j =>
        have hj2 : j < cs.length := by
          simp only [List.length_cons] at hj; omega
        simpa using hall j hj2
    · intro j hj hj0
      omega
  · have hk1 : k + 1 < (c0 :: cs).length := by
      simp only [List.length_cons]; omega
    refine ⟨k + 1, current.distance cs[k], hk1, ?_, ?_, ?_, ?_⟩
    · simp only [selectNearest, heq]
      have h1k : 1 + k = k + 1 := by omega
      rw [h1k]
    · simp
    · intro j hj
      cases j with
      | zero =>
        simp only [List.getElem_cons_zero]
        exact le_of_lt hlt
      | succ j =>
        have hj2 : j < cs.length := by
          simp only [List.length_cons] at hj; omega
        simpa using hmin j hj2
    · intro j hj hjk
      cases j with
      | zero =>
        simp only [List.getElem_cons_zero]
        exact hlt
      | succ j =>
        have hj2 : j < cs.length := by
          simp only [List.length_cons] at hj; omega
        have hjk2 : j < k := by omega
        simpa using hstrict j hj2 hjk2

theorem getD_eq_getElem_of_lt {α : Type} (l : List α) (i : Nat) (d : α)
    (h : i < l.length) : l.getD i d = l[i] := by
  simp [List.getD_eq_getElem?_getD, List.getElem?_eq_getElem, h]

theorem nnLoop_nil (fuel : Nat) (current : Node) (tour : Tour) :
    nnLoop fuel current [] tour = (tour, current) := by
  cases fuel <;> rfl

/-- One unfolding of the while-loop on a nonempty working collection. -/
theorem nnLoop_cons (fuel : Nat) (current c0 : Node) (cs : List Node) (tour : Tour) :
    nnLoop (fuel + 1) current (c0 :: cs) tour =
      nnLoop fuel ((c0 :: cs).getD (scanNearest current cs 0 (current.distance c0) 1).1 c0)
        ((c0 :: cs).eraseIdx (scanNearest current cs 0 (current.distance c0) 1).1)
        { path := tour.path ++
            [(c0 :: cs).getD (scanNearest current cs 0 (current.distance c0) 1).1 c0]
          weights := tour.weights ++ [(scanNearest current cs 0 (current.distance c0) 1).2]
          total_distance :=
            tour.total_distance + (scanNearest current cs 0 (current.distance c0) 1).2 } := rfl

/-- The scan's returned distance is the distance from `current` to the city it
selects. -/
theorem scanNearest_snd_eq (current c0 : Node) (cs : List Node) :
    (scanNearest current cs 0 (current.distance c0) 1).2 =
      current.distance
        ((c0 :: cs).getD (scanNearest current cs 0 (current.distance c0) 1).1 c0) := by
  rcases selectNearest_some current c0 cs with ⟨bi, bd, hbi, hseleq, hbd, _, _⟩
  have hs : scanNearest current cs 0 (current.distance c0) 1 = (bi, bd) := by
    simpa [selectNearest] using hseleq
  rw [hs]
  rw [getD_eq_getElem_of_lt _ _ _ hbi]
  exact hbd

/-- Combined loop invariant of the while-loop (TSP.cpp lines 167-192).
Provided `current` is the last city of the accumulated path: the final path is
the accumulated path extended by all remaining cities in some order; its head
is preserved; the final `current` is the final path's last city; one weight is
appended per city; the weight list stays `0` followed by the distances of
consecutive path pairs; and the running total stays the sum of the weights. -/
theorem nnLoop_spec_aux : ∀ (N : Nat) (cities : List Node), cities.length ≤ N →
    ∀ (current : Node) (tour : Tour), tour.path.getLast? = some current →
      ((nnLoop N current cities tour).1.path.Perm (tour.path ++ cities) ∧
       (nnLoop N current cities tour).1.path.head? = tour.path.head? ∧
       (nnLoop N current cities tour).1.path.getLast? = some (nnLoop N current cities tour).2 ∧
       (nnLoop N current cities tour).1.weights.length =
         tour.weights.length + cities.length ∧
       (tour.weights = 0 :: edgeWeights tour.path →
         (nnLoop N current cities tour).1.weights =
           0 :: edgeWeights (nnLoop N current cities tour).1.path) ∧
       (tour.total_distance = tour.weights.sum →
         (nnLoop N current cities tour).1.total_distance =
           (nnLoop N current cities tour).1.weights.sum)) := by
  intro N
  induction N with
  | zero =>
    intro cities hlen current tour hlast
    have hnil : cities = [] := List.eq_nil_of_length_eq_zero (Nat.le_zero.mp hlen)
    subst hnil
    rw [nnLoop_nil]
    exact ⟨by simp, rfl, hlast, by simp, fun h => h, fun h => h⟩
  | succ N ihN =>
    intro cities hlen current tour hlast
    cases cities with
    | nil =>
      rw [nnLoop_nil]
      exact ⟨by simp, rfl, hlast, by simp, fun h => h, fun h => h⟩
    | cons c0 cs =>
      have hS1 : (scanNearest current cs 0 (current.distance c0) 1).1 <
          (c0 :: cs).length := by
        have h := scanNearest_fst_lt current cs 0 (current.distance c0) 1 Nat.one_pos
        simp only [List.length_cons]
        omega
      have hnear : (c0 :: cs).getD
          (scanNearest current cs 0 (current.distance c0) 1).1 c0 =
          (c0 :: cs)[(scanNearest current cs 0 (current.distance c0) 1).1] :=
        getD_eq_getElem_of_lt _ _ _ hS1
      have hS2 := scanNearest_snd_eq current c0 cs
      have hperm := perm_getElem_cons_eraseIdx (c0 :: cs) _ hS1
      have hlenE : ((c0 :: cs).eraseIdx
          (scanNearest current cs 0 (current.distance c0) 1).1).length = cs.length := by
        rw [List.length_eraseIdx_of_lt hS1]
        simp
      have hlast' : (tour.path ++
          [(c0 :: cs).getD (scanNearest current cs 0 (current.distance c0) 1).1 c0]).getLast? =
          some ((c0 :: cs).getD (scanNearest current cs 0 (current.distance c0) 1).1 c0) :=
        List.getLast?_concat _
      have hlenE' : ((c0 :: cs).eraseIdx
          (scanNearest current cs 0 (current.distance c0) 1).1).length ≤ N := by
        rw [hlenE]
        simp only [List.length_cons] at hlen
        omega
      obtain ⟨c1, c2, c3, c4, c5, c6⟩ := ihN _ hlenE'
        ((c0 :: cs).getD (scanNearest current cs 0 (current.distance c0) 1).1 c0)
        { path := tour.path ++
            [(c0 :: cs).getD (scanNearest current cs 0 (current.distance c0) 1).1 c0]
          weights := tour.weights ++ [(scanNearest current cs 0 (current.distance c0) 1).2]
          total_distance :=
            tour.total_distance + (scanNearest current cs 0 (current.distance c0) 1).2 }
        hlast'
      have hne : tour.path ≠ [] := by
        intro h
        rw [h] at hlast
        simp at hlast
      obtain ⟨hd, tl, hpath⟩ := List.exists_cons_of_ne_nil hne
      rw [nnLoop_cons]
      refine ⟨?_, ?_, c3, ?_, ?_, ?_⟩
      · refine c1.trans ?_
        rw [List.append_assoc]
        refine List.Perm.append_left tour.path ?_
        rw [hnear]
        exact hperm.symm
      · rw [c2, hpath]
        simp
      · rw [c4, hlenE]
        show (tour.weights ++ [(scanNearest current cs 0 (current.distance c0) 1).2]).length
            + cs.length = tour.weights.length + (c0 :: cs).length
        simp only [List.length_append, List.length_cons, List.length_nil]
        omega
      · intro hw
        refine c5 ?_
        show tour.weights ++ [(scanNearest current cs 0 (current.distance c0) 1).2] =
          0 :: edgeWeights (tour.path ++
            [(c0 :: cs).getD (scanNearest current cs 0 (current.distance c0) 1).1 c0])
        rw [edgeWeights_concat current tour.path _ hlast, hw, ← hS2]
        simp
      · intro ht
        refine c6 ?_
        show tour.total_distance + (scanNearest current cs 0 (current.distance c0) 1).2 =
          (tour.weights ++ [(scanNearest current cs 0 (current.distance c0) 1).2]).sum
        rw [ht]
        simp

/-- Combined loop invariant of the while-loop, stated for the actual call. -/
theorem nnLoop_spec (current : Node) (cities : List Node) (tour : Tour)
    (hlast : tour.path.getLast? = some current) :
    ((nnLoop cities.length current cities tour).1.path.Perm (tour.path ++ cities) ∧
     (nnLoop cities.length current cities tour).1.path.head? = tour.path.head? ∧
     (nnLoop cities.length current cities tour).1.path.getLast? = some (nnLoop cities.length current cities tour).2 ∧
     (nnLoop cities.length current cities tour).1.weights.length =
       tour.weights.length + cities.length ∧
     (tour.weights = 0 :: edgeWeights tour.path →
       (nnLoop cities.length current cities tour).1.weights =
         0 :: edgeWeights (nnLoop cities.length current cities tour).1.path) ∧
     (tour.total_distance = tour.weights.sum →
       (nnLoop cities.length current cities tour).1.total_distance =
         (nnLoop cities.length current cities tour).1.weights.sum)) :=
  nnLoop_spec_aux cities.length cities le_rfl current tour hlast

/-- Facts shared by every successful run of the builder: when the lookup of
`start_id` succeeds with city `n0`, the returned tour's path is the input
collection reordered, with a closing copy of `n0` appended; its head and last
city are both `n0`; its weights are `0` followed by the distances of the
path's consecutive pairs; and its total is the exact sum of the weights. -/
theorem nearestNeighbor_spec_aux (cities : List Node) (start_id : Nat) (n0 : Node)
    (hfind : cities.find? (fun n => n.id == start_id) = some n0) :
    ∃ t, nearestNeighbor cities start_id = some t ∧
      t.path.Perm (cities ++ [n0]) ∧
      t.path.head? = some n0 ∧
      t.path.getLast? = some n0 ∧
      t.path.length = cities.length + 1 ∧
      t.weights = 0 :: edgeWeights t.path ∧
      t.weights.length = t.path.length ∧
      t.total_distance = t.weights.sum := by
  have hmem : n0 ∈ cities := List.mem_of_find?_eq_some hfind
  have hp := List.find?_some hfind
  have hp2 : (fun n => n.id == start_id) n0 = true := hp
  obtain ⟨a, l1, l2, hl1, hpa, hcities, herase⟩ :=
    @List.exists_of_eraseP Node (fun n => n.id == start_id) cities n0 hmem hp2
  have hfind2 : cities.find? (fun n => n.id == start_id) = some a := by
    rw [hcities, List.find?_append]
    have h1 : l1.find? (fun n => n.id == start_id) = none :=
      List.find?_eq_none.mpr hl1
    rw [h1]
    simp [hpa]
  have han : a = n0 := by
    rw [hfind2] at hfind
    exact Option.some.inj hfind
  subst han
  have hpermC : (a :: cities.eraseP (fun n => n.id == start_id)).Perm cities := by
    rw [herase, hcities]
    exact List.perm_middle.symm
  have hlenC : (cities.eraseP (fun n => n.id == start_id)).length + 1 =
      cities.length := by
    rw [herase, hcities]
    simp only [List.length_append, List.length_cons]
    omega
  obtain ⟨p1, p2, p3, p4, p5, p6⟩ :=
    nnLoop_spec a (cities.eraseP (fun n => n.id == start_id))
      { path := [a], weights := [0], total_distance := 0 } (by simp)
  have hhead : (nnLoop (cities.eraseP (fun n => n.id == start_id)).length a (cities.eraseP (fun n => n.id == start_id))
      { path := [a], weights := [0], total_distance := 0 }).1.path.head? = some a := by
    simpa using p2
  have hfront : (nnLoop (cities.eraseP (fun n => n.id == start_id)).length a (cities.eraseP (fun n => n.id == start_id))
      { path := [a], weights := [0], total_distance := 0 }).1.path.headD a = a := by
    rw [List.headD_eq_head?_getD, hhead]
    rfl
  have hw := p5 (by rfl)
  have ht := p6 (by simp)
  have hpathperm : (nnLoop (cities.eraseP (fun n => n.id == start_id)).length a (cities.eraseP (fun n => n.id == start_id))
      { path := [a], weights := [0], total_distance := 0 }).1.path.Perm cities := by
    refine p1.trans ?_
    simpa using hpermC
  simp only [nearestNeighbor, hfind]
  refine ⟨_, rfl, ?_, ?_, ?_, ?_, ?_, ?_, ?_⟩
  · show ((nnLoop (cities.eraseP (fun n => n.id == start_id)).length a (cities.eraseP (fun n => n.id == start_id))
        { path := [a], weights := [0], total_distance := 0 }).1.path ++
        [(nnLoop (cities.eraseP (fun n => n.id == start_id)).length a (cities.eraseP (fun n => n.id == start_id))
        { path := [a], weights := [0], total_distance := 0 }).1.path.headD a]).Perm
      (cities ++ [a])
    rw [hfront]
    exact hpathperm.append_right [a]
  · show ((nnLoop (cities.eraseP (fun n => n.id == start_id)).length a (cities.eraseP (fun n => n.id == start_id))
        { path := [a], weights := [0], total_distance := 0 }).1.path ++
        [(nnLoop (cities.eraseP (fun n => n.id == start_id)).length a (cities.eraseP (fun n => n.id == start_id))
        { path := [a], weights := [0], total_distance := 0 }).1.path.headD a]).head? =
      some a
    rw [List.head?_append, hhead]
    rfl
  · show ((nnLoop (cities.eraseP (fun n => n.id == start_id)).length a (cities.eraseP (fun n => n.id == start_id))
        { path := [a], weights := [0], total_distance := 0 }).1.path ++
        [(nnLoop (cities.eraseP (fun n => n.id == start_id)).length a (cities.eraseP (fun n => n.id == start_id))
        { path := [a], weights := [0], total_distance := 0 }).1.path.headD a]).getLast? =
      some a
    rw [hfront]
    exact List.getLast?_concat _
  · show ((nnLoop (cities.eraseP (fun n => n.id == start_id)).length a (cities.eraseP (fun n => n.id == start_id))
        { path := [a], weights := [0], total_distance := 0 }).1.path ++
        [(nnLoop (cities.eraseP (fun n => n.id == start_id)).length a (cities.eraseP (fun n => n.id == start_id))
        { path := [a], weights := [0], total_distance := 0 }).1.path.headD a]).length =
      cities.length + 1
    rw [List.length_append, hpathperm.length_eq]
    simp
  · show (nnLoop (cities.eraseP (fun n => n.id == start_id)).length a (cities.eraseP (fun n => n.id == start_id))
        { path := [a], weights := [0], total_distance := 0 }).1.weights ++
        [(nnLoop (cities.eraseP (fun n => n.id == start_id)).length a (cities.eraseP (fun n => n.id == start_id))
        { path := [a], weights := [0], total_distance := 0 }).2.distance
          ((nnLoop (cities.eraseP (fun n => n.id == start_id)).length a (cities.eraseP (fun n => n.id == start_id))
        { path := [a], weights := [0], total_distance := 0 }).1.path.headD a)] =
      0 :: edgeWeights ((nnLoop (cities.eraseP (fun n => n.id == start_id)).length a (cities.eraseP (fun n => n.id == start_id))
        { path := [a], weights := [0], total_distance := 0 }).1.path ++
        [(nnLoop (cities.eraseP (fun n => n.id == start_id)).length a (cities.eraseP (fun n => n.id == start_id))
        { path := [a], weights := [0], total_distance := 0 }).1.path.headD a])
    rw [edgeWeights_concat _ _ _ p3, hw]
    rfl
  · show ((nnLoop (cities.eraseP (fun n => n.id == start_id)).length a (cities.eraseP (fun n => n.id == start_id))
        { path := [a], weights := [0], total_distance := 0 }).1.weights ++
        [(nnLoop (cities.eraseP (fun n => n.id == start_id)).length a (cities.eraseP (fun n => n.id == start_id))
        { path := [a], weights := [0], total_distance := 0 }).2.distance
          ((nnLoop (cities.eraseP (fun n => n.id == start_id)).length a (cities.eraseP (fun n => n.id == start_id))
        { path := [a], weights := [0], total_distance := 0 }).1.path.headD a)]).length =
      ((nnLoop (cities.eraseP (fun n => n.id == start_id)).length a (cities.eraseP (fun n => n.id == start_id))
        { path := [a], weights := [0], total_distance := 0 }).1.path ++
        [(nnLoop (cities.eraseP (fun n => n.id == start_id)).length a (cities.eraseP (fun n => n.id == start_id))
        { path := [a], weights := [0], total_distance := 0 }).1.path.headD a]).length
    rw [List.length_append, List.length_append, p4, hpathperm.length_eq]
    simp only [List.length_singleton]
    omega
  · show (nnLoop (cities.eraseP (fun n => n.id == start_id)).length a (cities.eraseP (fun n => n.id == start_id))
        { path := [a], weights := [0], total_distance := 0 }).1.total_distance +
        (nnLoop (cities.eraseP (fun n => n.id == start_id)).length a (cities.eraseP (fun n => n.id == start_id))
        { path := [a], weights := [0], total_distance := 0 }).2.distance
          ((nnLoop (cities.eraseP (fun n => n.id == start_id)).length a (cities.eraseP (fun n => n.id == start_id))
        { path := [a], weights := [0], total_distance := 0 }).1.path.headD a) =
      ((nnLoop (cities.eraseP (fun n => n.id == start_id)).length a (cities.eraseP (fun n => n.id == start_id))
        { path := [a], weights := [0], total_distance := 0 }).1.weights ++
        [(nnLoop (cities.eraseP (fun n => n.id == start_id)).length a (cities.eraseP (fun n => n.id == start_id))
        { path := [a], weights := [0], total_distance := 0 }).2.distance
          ((nnLoop (cities.eraseP (fun n => n.id == start_id)).length a (cities.eraseP (fun n => n.id == start_id))
        { path := [a], weights := [0], total_distance := 0 }).1.path.headD a)]).sum
    rw [ht]
    simp

/-!
The claims.
-/

/-- Claim C1.  The claim asserts that on an empty collection, or when no
point has id `start_id`, the builder fails with an explicit, typed
PreconditionError and produces no Tour.  The source raises no error at all:
`TSP::nearestNeighbor` leaves `start_it` equal to `cities.end()` when the
lookup loop finds no match and dereferences it unconditionally at TSP.cpp
line 158 — undefined behavior, not a typed failure.  The embedding maps that
branch to `none`; this theorem evaluates the two failing inputs (the empty
collection, and a one-city collection without id 1), showing no Tour is
produced, while the C++ exhibits undefined behavior there instead of the
claimed PreconditionError. -/
theorem nearestNeighbor_absent_is_ub :
    nearestNeighbor [] 1 = none ∧
    nearestNeighbor [⟨2, 0, 0⟩] 1 = none := by
  constructor
  · rfl
  · with_unfolding_all rfl

/-- Claim C2: for every non-empty collection with pairwise distinct ids and
every `start_id` present in it, the builder returns a tour whose path has
`n + 1` entries for `n` input cities, whose first and last entries carry
`start_id`, and in which the id of every other input city occurs exactly
once. -/
theorem nearestNeighbor_shape (cities : List Node) (start_id : Nat)
    (hnd : (cities.map Node.id).Nodup)
    (hmem : ∃ n ∈ cities, n.id = start_id) :
    ∃ t, nearestNeighbor cities start_id = some t ∧
      t.path.length = cities.length + 1 ∧
      t.path.head?.map Node.id = some start_id ∧
      t.path.getLast?.map Node.id = some start_id ∧
      ∀ n ∈ cities, n.id ≠ start_id → (t.path.map Node.id).count n.id = 1 := by
  obtain ⟨m, hm, hmid⟩ := hmem
  have hsome : (cities.find? (fun n => n.id == start_id)).isSome :=
    List.find?_isSome.mpr ⟨m, hm, by simp [hmid]⟩
  obtain ⟨n0, hfind⟩ := Option.isSome_iff_exists.mp hsome
  have hn0 : n0.id = start_id := by
    have h := List.find?_some hfind
    simpa using h
  obtain ⟨t, heq, hperm, hhead, hlastt, hlen, hwts, hwl, htot⟩ :=
    nearestNeighbor_spec_aux cities start_id n0 hfind
  refine ⟨t, heq, hlen, ?_, ?_, ?_⟩
  · rw [hhead]
    simp [hn0]
  · rw [hlastt]
    simp [hn0]
  · intro p hp hpneq
    have hcount : (t.path.map Node.id).count p.id =
        ((cities ++ [n0]).map Node.id).count p.id :=
      (hperm.map Node.id).count_eq p.id
    rw [hcount, List.map_append, List.count_append]
    have h1 : (cities.map Node.id).count p.id = 1 :=
      List.count_eq_one_of_mem hnd (List.mem_map_of_mem Node.id hp)
    have h2 : ([n0].map Node.id).count p.id = 0 := by
      simp only [List.map_cons, List.map_nil]
      rw [List.count_cons]
      simp [hn0, Ne.symm hpneq]
    rw [h1, h2]

/-- Witness for C2 at the spec's three-city scenario. -/
theorem nearestNeighbor_shape_witness :
    (([⟨1, 0, 0⟩, ⟨2, 3, 0⟩, ⟨3, 3, 4⟩] : List Node).map Node.id).Nodup ∧
    (∃ n ∈ ([⟨1, 0, 0⟩, ⟨2, 3, 0⟩, ⟨3, 3, 4⟩] : List Node), n.id = 1) ∧
    (∃ t, nearestNeighbor [⟨1, 0, 0⟩, ⟨2, 3, 0⟩, ⟨3, 3, 4⟩] 1 = some t ∧
      t.path.length = ([⟨1, 0, 0⟩, ⟨2, 3, 0⟩, ⟨3, 3, 4⟩] : List Node).length + 1 ∧
      t.path.head?.map Node.id = some 1 ∧
      t.path.getLast?.map Node.id = some 1 ∧
      ∀ n ∈ ([⟨1, 0, 0⟩, ⟨2, 3, 0⟩, ⟨3, 3, 4⟩] : List Node), n.id ≠ 1 →
        (t.path.map Node.id).count n.id = 1) :=
  ⟨by decide, ⟨⟨1, 0, 0⟩, List.mem_cons_self _ _, rfl⟩,
    nearestNeighbor_shape [⟨1, 0, 0⟩, ⟨2, 3, 0⟩, ⟨3, 3, 4⟩] 1 (by decide)
      ⟨⟨1, 0, 0⟩, List.mem_cons_self _ _, rfl⟩⟩

/-- Claim C3: at every iteration of tour construction the appended city is
the first city, in the working collection's enumeration order, whose distance
from `current` is minimal: the selected index carries a distance that is a
lower bound for every remaining city, every city earlier in scan order is
strictly farther (so equal-distance ties go to the first one scanned), and
one unfolding of the while-loop appends exactly that city with exactly that
distance. -/
theorem selectNearest_first_min (current : Node) (cities : List Node)
    (hne : cities ≠ []) :
    ∃ bi bd, selectNearest current cities = some (bi, bd) ∧
      ∃ hbi : bi < cities.length,
        bd = current.distance cities[bi] ∧
        (∀ j, (hj : j < cities.length) → bd ≤ current.distance cities[j]) ∧
        (∀ j, (hj : j < cities.length) → j < bi → bd < current.distance cities[j]) ∧
        ∀ fuel tour, nnLoop (fuel + 1) current cities tour =
          nnLoop fuel cities[bi] (cities.eraseIdx bi)
            { path := tour.path ++ [cities[bi]]
              weights := tour.weights ++ [bd]
              total_distance := tour.total_distance + bd } := by
  cases cities with
  | nil => exact absurd rfl hne
  | cons c0 cs =>
    obtain ⟨bi, bd, hbi, hsel, hbd, hmin, hstrict⟩ := selectNearest_some current c0 cs
    refine ⟨bi, bd, hsel, hbi, hbd, hmin, hstrict, ?_⟩
    intro fuel tour
    have hs : scanNearest current cs 0 (current.distance c0) 1 = (bi, bd) := by
      simpa [selectNearest] using hsel
    have hs1 : (scanNearest current cs 0 (current.distance c0) 1).1 = bi := by
      rw [hs]
    have hs2 : (scanNearest current cs 0 (current.distance c0) 1).2 = bd := by
      rw [hs]
    rw [nnLoop_cons, hs1, hs2, getD_eq_getElem_of_lt _ _ _ hbi]

/-- Witness for C3 at a concrete two-city collection. -/
theorem selectNearest_first_min_witness :
    (([⟨2, 3, 0⟩, ⟨3, 0, 3⟩] : List Node) ≠ []) ∧
    (∃ bi bd, selectNearest ⟨1, 0, 0⟩ [⟨2, 3, 0⟩, ⟨3, 0, 3⟩] = some (bi, bd) ∧
      ∃ hbi : bi < ([⟨2, 3, 0⟩, ⟨3, 0, 3⟩] : List Node).length,
        bd = Node.distance ⟨1, 0, 0⟩ (([⟨2, 3, 0⟩, ⟨3, 0, 3⟩] : List Node)[bi]) ∧
        (∀ j, (hj : j < ([⟨2, 3, 0⟩, ⟨3, 0, 3⟩] : List Node).length) →
          bd ≤ Node.distance ⟨1, 0, 0⟩ (([⟨2, 3, 0⟩, ⟨3, 0, 3⟩] : List Node)[j])) ∧
        (∀ j, (hj : j < ([⟨2, 3, 0⟩, ⟨3, 0, 3⟩] : List Node).length) → j < bi →
          bd < Node.distance ⟨1, 0, 0⟩ (([⟨2, 3, 0⟩, ⟨3, 0, 3⟩] : List Node)[j])) ∧
        ∀ fuel tour, nnLoop (fuel + 1) ⟨1, 0, 0⟩ [⟨2, 3, 0⟩, ⟨3, 0, 3⟩] tour =
          nnLoop fuel (([⟨2, 3, 0⟩, ⟨3, 0, 3⟩] : List Node)[bi])
            (([⟨2, 3, 0⟩, ⟨3, 0, 3⟩] : List Node).eraseIdx bi)
            { path := tour.path ++ [([⟨2, 3, 0⟩, ⟨3, 0, 3⟩] : List Node)[bi]]
              weights := tour.weights ++ [bd]
              total_distance := tour.total_distance + bd }) :=
  ⟨List.cons_ne_nil _ _,
    selectNearest_first_min ⟨1, 0, 0⟩ [⟨2, 3, 0⟩, ⟨3, 0, 3⟩] (List.cons_ne_nil _ _)⟩

/-- Claim C4: in every tour the builder returns, the weight list has exactly
as many entries as the path, its first entry is `0`, and each later entry at
position `i` is the distance from `path[i-1]` to `path[i]`. -/
theorem nearestNeighbor_weights_spec (cities : List Node) (start_id : Nat)
    (t : Tour) (h : nearestNeighbor cities start_id = some t) :
    t.weights.length = t.path.length ∧
    t.weights.getD 0 0 = 0 ∧
    ∀ i, 0 < i → i < t.weights.length →
      t.weights.getD i 0 =
        (t.path.getD (i - 1) default).distance (t.path.getD i default) := by
  cases hfind : cities.find? (fun n => n.id == start_id) with
  | none =>
    rw [nearestNeighbor, hfind] at h
    exact absurd h (by simp)
  | some n0 =>
    obtain ⟨u, heq, hperm, hhead, hlastt, hlen, hwts, hwl, htot⟩ :=
      nearestNeighbor_spec_aux cities start_id n0 hfind
    rw [heq] at h
    obtain rfl : u = t := Option.some.inj h
    refine ⟨hwl, by rw [hwts]; rfl, ?_⟩
    intro i h0 hil
    obtain ⟨j, rfl⟩ : ∃ j, i = j + 1 := ⟨i - 1, by omega⟩
    have hjew : j < (edgeWeights u.path).length := by
      rw [hwts] at hil
      simp only [List.length_cons] at hil
      omega
    have hjp1 : j + 1 < u.path.length := by
      rw [← hwl]
      exact hil
    have hjp : j < u.path.length := by omega
    have hjt : j < u.path.tail.length := by
      rw [List.length_tail]
      omega
    rw [hwts, List.getD_cons_succ, getD_eq_getElem_of_lt _ _ _ hjew]
    have hz : (edgeWeights u.path)[j] =
        Node.distance u.path[j] u.path.tail[j] := by
      simp only [edgeWeights]
      rw [List.getElem_zipWith]
    rw [hz, List.getElem_tail]
    rw [Nat.add_sub_cancel, getD_eq_getElem_of_lt _ _ _ hjp,
      getD_eq_getElem_of_lt _ _ _ hjp1]

/-- Witness for C4 at the spec's three-city scenario. -/
theorem nearestNeighbor_weights_spec_witness :
    nearestNeighbor [⟨1, 0, 0⟩, ⟨2, 3, 0⟩, ⟨3, 3, 4⟩] 1 =
      some { path := [⟨1, 0, 0⟩, ⟨2, 3, 0⟩, ⟨3, 3, 4⟩, ⟨1, 0, 0⟩]
             weights := [0, 3, 4, 5]
             total_distance := 12 } ∧
    (({ path := [⟨1, 0, 0⟩, ⟨2, 3, 0⟩, ⟨3, 3, 4⟩, ⟨1, 0, 0⟩]
        weights := [0, 3, 4, 5]
        total_distance := 12 } : Tour).weights.length =
      ({ path := [⟨1, 0, 0⟩, ⟨2, 3, 0⟩, ⟨3, 3, 4⟩, ⟨1, 0, 0⟩]
         weights := [0, 3, 4, 5]
         total_distance := 12 } : Tour).path.length ∧
     ({ path := [⟨1, 0, 0⟩, ⟨2, 3, 0⟩, ⟨3, 3, 4⟩, ⟨1, 0, 0⟩]
        weights := [0, 3, 4, 5]
        total_distance := 12 } : Tour).weights.getD 0 0 = 0 ∧
     ∀ i, 0 < i →
       i < ({ path := [⟨1, 0, 0⟩, ⟨2, 3, 0⟩, ⟨3, 3, 4⟩, ⟨1, 0, 0⟩]
              weights := [0, 3, 4, 5]
              total_distance := 12 } : Tour).weights.length →
       ({ path := [⟨1, 0, 0⟩, ⟨2, 3, 0⟩, ⟨3, 3, 4⟩, ⟨1, 0, 0⟩]
          weights := [0, 3, 4, 5]
          total_distance := 12 } : Tour).weights.getD i 0 =
         (({ path := [⟨1, 0, 0⟩, ⟨2, 3, 0⟩, ⟨3, 3, 4⟩, ⟨1, 0, 0⟩]
             weights := [0, 3, 4, 5]
             total_distance := 12 } : Tour).path.getD (i - 1) default).distance
           (({ path := [⟨1, 0, 0⟩, ⟨2, 3, 0⟩, ⟨3, 3, 4⟩, ⟨1, 0, 0⟩]
               weights := [0, 3, 4, 5]
               total_distance := 12 } : Tour).path.getD i default)) :=
  ⟨by with_unfolding_all rfl,
    nearestNeighbor_weights_spec [⟨1, 0, 0⟩, ⟨2, 3, 0⟩, ⟨3, 3, 4⟩] 1 _
      (by with_unfolding_all rfl)⟩

/-- Claim C5: in every tour the builder returns, the stored total distance is
exactly the sum of the stored weights. -/
theorem nearestNeighbor_total_eq_sum (cities : List Node) (start_id : Nat)
    (t : Tour) (h : nearestNeighbor cities start_id = some t) :
    t.total_distance = t.weights.sum := by
  cases hfind : cities.find? (fun n => n.id == start_id) with
  | none =>
    rw [nearestNeighbor, hfind] at h
    exact absurd h (by simp)
  | some n0 =>
    obtain ⟨u, heq, hperm, hhead, hlastt, hlen, hwts, hwl, htot⟩ :=
      nearestNeighbor_spec_aux cities start_id n0 hfind
    rw [heq] at h
    obtain rfl : u = t := Option.some.inj h
    exact htot

/-- Witness for C5 at the spec's three-city scenario. -/
theorem nearestNeighbor_total_eq_sum_witness :
    nearestNeighbor [⟨1, 0, 0⟩, ⟨2, 3, 0⟩, ⟨3, 3, 4⟩] 1 =
      some { path := [⟨1, 0, 0⟩, ⟨2, 3, 0⟩, ⟨3, 3, 4⟩, ⟨1, 0, 0⟩]
             weights := [0, 3, 4, 5]
             total_distance := 12 } ∧
    ({ path := [⟨1, 0, 0⟩, ⟨2, 3, 0⟩, ⟨3, 3, 4⟩, ⟨1, 0, 0⟩]
       weights := [0, 3, 4, 5]
       total_distance := 12 } : Tour).total_distance =
      ({ path := [⟨1, 0, 0⟩, ⟨2, 3, 0⟩, ⟨3, 3, 4⟩, ⟨1, 0, 0⟩]
         weights := [0, 3, 4, 5]
         total_distance := 12 } : Tour).weights.sum :=
  ⟨by with_unfolding_all rfl,
    nearestNeighbor_total_eq_sum [⟨1, 0, 0⟩, ⟨2, 3, 0⟩, ⟨3, 3, 4⟩] 1 _
      (by with_unfolding_all rfl)⟩

/-- Claim C6: the spec's three-city scenario.  On `{1:(0,0), 2:(3,0),
3:(3,4)}` with start id `1` the builder returns path `[1, 2, 3, 1]`, weights
`[0, 3, 4, 5]` and total `12`, the three edge distances being the Euclidean
lengths 3, 4, 5 truncated toward zero to a natural number. -/
theorem nearestNeighbor_three_cities :
    nearestNeighbor [⟨1, 0, 0⟩, ⟨2, 3, 0⟩, ⟨3, 3, 4⟩] 1 =
      some { path := [⟨1, 0, 0⟩, ⟨2, 3, 0⟩, ⟨3, 3, 4⟩, ⟨1, 0, 0⟩]
             weights := [0, 3, 4, 5]
             total_distance := 12 } ∧
    Node.distance ⟨1, 0, 0⟩ ⟨2, 3, 0⟩ = 3 ∧
    Node.distance ⟨2, 3, 0⟩ ⟨3, 3, 4⟩ = 4 ∧
    Node.distance ⟨3, 3, 4⟩ ⟨1, 0, 0⟩ = 5 := by
  refine ⟨?_, ?_, ?_, ?_⟩ <;> with_unfolding_all rfl

/-- Claim C7: the spec's single-city scenario.  On `{1:(5,5)}` with start id
`1` the builder returns path `[1, 1]`, weights `[0, 0]` and total `0`. -/
theorem nearestNeighbor_single_city :
    nearestNeighbor [⟨1, 5, 5⟩] 1 =
      some { path := [⟨1, 5, 5⟩, ⟨1, 5, 5⟩]
             weights := [0, 0]
             total_distance := 0 } := by
  with_unfolding_all rfl

/-- Claim C8: the distance primitive is symmetric, always nonnegative, and
zero from a city to itself. -/
theorem distance_symm_nonneg_self (a b : Node) :
    a.distance b = b.distance a ∧ 0 ≤ a.distance b ∧ a.distance a = 0 := by
  refine ⟨?_, Nat.zero_le _, ?_⟩
  · unfold Node.distance
    have key : (a.x - b.x) ^ 2 + (a.y - b.y) ^ 2 =
        (b.x - a.x) ^ 2 + (b.y - a.y) ^ 2 := by ring
    rw [key]
  · unfold Node.distance
    have key : (a.x - a.x) ^ 2 + (a.y - a.y) ^ 2 = 0 := by ring
    rw [key]
    rfl

/-- Claim C9: on every completed tour (weight list as long as the path), the
report formatter emits exactly one line of the shape
`EDGE <from_id> -> <to_id> | WEIGHT : <weight>` per consecutive path pair
with its weight, followed by the single final line
`TOTAL DISTANCE: <total>`, and nothing else. -/
theorem display_shape (t : Tour) (h : t.weights.length = t.path.length) :
    Tour.display t =
      (List.zipWith (fun p w => edgeLine p.1 p.2 w) (t.path.zip t.path.tail)
        t.weights.tail)
      ++ ["TOTAL DISTANCE: " ++ toString t.total_distance] := by
  unfold Tour.display
  congr 1
  apply List.ext_getElem
  · simp only [List.length_map, List.length_drop, List.length_range,
      List.length_zipWith, List.length_zip, List.length_tail, h]
    omega
  · intro i h1 h2
    have hlen1 : i < t.path.length - 1 := by
      simp only [List.length_map, List.length_drop, List.length_range] at h1
      omega
    have hip : i < t.path.length := by omega
    have hip1 : i + 1 < t.path.length := by omega
    have hit : i < t.path.tail.length := by
      rw [List.length_tail]
      omega
    have hiw : i + 1 < t.weights.length := by omega
    have hiwt : i < t.weights.tail.length := by
      rw [List.length_tail]
      omega
    rw [List.getElem_map, List.getElem_drop, List.getElem_range,
      List.getElem_zipWith]
    rw [List.getElem_zip, List.getElem_tail, List.getElem_tail]
    have hidx : 1 + i - 1 = i := by omega
    rw [hidx]
    rw [getD_eq_getElem_of_lt _ _ _ hip]
    have h1i : 1 + i = i + 1 := by omega
    rw [h1i, getD_eq_getElem_of_lt _ _ _ hip1]
    have hg : t.weights.getD (i + 1) 0 = t.weights[i + 1] := by
      simp [List.getD_eq_getElem?_getD, List.getElem?_eq_getElem, hiw]
    rw [hg]

/-- Witness for C9 at the spec's three-city tour. -/
theorem display_shape_witness :
    ({ path := [⟨1, 0, 0⟩, ⟨2, 3, 0⟩, ⟨3, 3, 4⟩, ⟨1, 0, 0⟩]
       weights := [0, 3, 4, 5]
       total_distance := 12 } : Tour).weights.length =
      ({ path := [⟨1, 0, 0⟩, ⟨2, 3, 0⟩, ⟨3, 3, 4⟩, ⟨1, 0, 0⟩]
         weights := [0, 3, 4, 5]
         total_distance := 12 } : Tour).path.length ∧
    Tour.display { path := [⟨1, 0, 0⟩, ⟨2, 3, 0⟩, ⟨3, 3, 4⟩, ⟨1, 0, 0⟩]
                   weights := [0, 3, 4, 5]
                   total_distance := 12 } =
      (List.zipWith (fun p w => edgeLine p.1 p.2 w)
        (({ path := [⟨1, 0, 0⟩, ⟨2, 3, 0⟩, ⟨3, 3, 4⟩, ⟨1, 0, 0⟩]
            weights := [0, 3, 4, 5]
            total_distance := 12 } : Tour).path.zip
          ({ path := [⟨1, 0, 0⟩, ⟨2, 3, 0⟩, ⟨3, 3, 4⟩, ⟨1, 0, 0⟩]
             weights := [0, 3, 4, 5]
             total_distance := 12 } : Tour).path.tail)
        ({ path := [⟨1, 0, 0⟩, ⟨2, 3, 0⟩, ⟨3, 3, 4⟩, ⟨1, 0, 0⟩]
           weights := [0, 3, 4, 5]
           total_distance := 12 } : Tour).weights.tail)
      ++ ["TOTAL DISTANCE: " ++
          toString ({ path := [⟨1, 0, 0⟩, ⟨2, 3, 0⟩, ⟨3, 3, 4⟩, ⟨1, 0, 0⟩]
                      weights := [0, 3, 4, 5]
                      total_distance := 12 } : Tour).total_distance] :=
  ⟨rfl, display_shape
    { path := [⟨1, 0, 0⟩, ⟨2, 3, 0⟩, ⟨3, 3, 4⟩, ⟨1, 0, 0⟩]
      weights := [0, 3, 4, 5]
      total_distance := 12 } rfl⟩

/-- Claim C10: the builder takes the collection by value (TSP.cpp line 146),
so the caller's list is observably unchanged by the call: the post-call
caller state returned by `nearestNeighborCall` is the original list. -/
theorem nearestNeighborCall_frame (cities : List Node) (start_id : Nat) :
    (nearestNeighborCall cities start_id).2 = cities := rfl

end TSP
